import Mathlib

/-!
Verification development for the MimirCodeUI batch documentation generator.

Python strings are modelled as `List Char` (one entry per code point, so
`List.length` agrees with Python `len`).  The chunking pipeline of
`code_documentation.py` / `deep_code_documentation.py` / `code_analyzer.py`
(the three copies of `chunk_content` are textually identical) is embedded
as executable functions below, together with the aggregation and
error-handling logic the specification describes.
-/

namespace MimirDoc

/-- A Python `str`, modelled as its sequence of code points. -/
abbrev PyStr := List Char

/-- Code points that Python `str.splitlines` treats as line boundaries:
LF, CR (and CRLF as a unit), VT, FF, FS, GS, RS, NEL, LINE SEPARATOR,
PARAGRAPH SEPARATOR. -/
def isLineBoundary (c : Char) : Bool :=
  c == '\n' || c == '\r' || c.toNat == 11 || c.toNat == 12 ||
    c.toNat == 28 || c.toNat == 29 || c.toNat == 30 || c.toNat == 133 ||
    c.toNat == 8232 || c.toNat == 8233

/-- Consume the line terminator starting at boundary character `c` with
remaining text `cs`: CRLF is one terminator, every other boundary
character stands alone.  Returns (terminator, rest). -/
def takeBoundary (c : Char) (cs : List Char) : PyStr × List Char :=
  match cs with
  | d :: ds => if c == '\r' && d == '\n' then ([c, d], ds) else ([c], cs)
  | [] => ([c], [])

/-- Split off the first line of a string (terminator kept), returning the
line and the remaining text. -/
def takeLine : List Char → PyStr × List Char
  | [] => ([], [])
  | c :: cs =>
    if isLineBoundary c then takeBoundary c cs
    else
      let p := takeLine cs
      (c :: p.1, p.2)

/-- Fuelled worker for `splitlines_keepends`; the fuel is an upper bound on
the number of remaining characters, so the definition stays structural
(and kernel-reducible). -/
def splitlinesAux : Nat → List Char → List PyStr
  | 0, _ => []
  | _, [] => []
  | fuel + 1, c :: cs =>
    let p := takeLine (c :: cs)
    p.1 :: splitlinesAux fuel p.2

/-- Model of Python `content.splitlines(keepends=True)` (line 74 of
`code_documentation.py`). -/
def splitlines_keepends (s : List Char) : List PyStr :=
  splitlinesAux s.length s

/-- The accumulating loop of `chunk_content` (`code_documentation.py`
lines 76-87): `buf` is `current_chunk_lines`, `len` is `current_length`,
and closed buffers are emitted joined, in order. -/
def chunkGo (chunk_size : Nat) : List PyStr → List PyStr → Nat → List PyStr
  | [], buf, _ => if buf = [] then [] else [buf.flatten]
  | line :: rest, buf, len =>
    if len + line.length > chunk_size ∧ buf ≠ [] then
      buf.flatten :: chunkGo chunk_size rest [line] line.length
    else
      chunkGo chunk_size rest (buf ++ [line]) (len + line.length)

/-- Model of `chunk_content(content, chunk_size)`
(`code_documentation.py` lines 67-87). -/
def chunk_content (content : PyStr) (chunk_size : Nat) : List PyStr :=
  if content = [] then []
  else chunkGo chunk_size (splitlines_keepends content) [] 0

/-- Proof companion of `chunkGo` that keeps each emitted chunk as its list
of constituent lines instead of joining them. -/
def chunkGroups (chunk_size : Nat) :
    List PyStr → List PyStr → Nat → List (List PyStr)
  | [], buf, _ => if buf = [] then [] else [buf]
  | line :: rest, buf, len =>
    if len + line.length > chunk_size ∧ buf ≠ [] then
      buf :: chunkGroups chunk_size rest [line] line.length
    else
      chunkGroups chunk_size rest (buf ++ [line]) (len + line.length)

/-- Total length of a list of lines. -/
def sumLen (ls : List PyStr) : Nat :=
  (ls.map List.length).sum

/-- How many further lines the chunking loop packs into the current chunk:
starting from accumulated length `acc`, lines are taken while the running
total stays within the budget `b`. -/
def extFit (b acc : Nat) : List PyStr → Nat
  | [] => 0
  | l :: ls => if acc + l.length ≤ b then extFit b (acc + l.length) ls + 1 else 0

/-- Greedy reformulation of the chunk loop, used to compare runs at
different budgets: each chunk takes its first line plus the maximal
budget-respecting extension. -/
def chunksG (b : Nat) : List PyStr → List (List PyStr)
  | [] => []
  | l :: rest =>
    (l :: rest.take (extFit b l.length rest)) ::
      chunksG b (rest.drop (extFit b l.length rest))
termination_by lines => lines.length
decreasing_by
  simp only [List.length_cons, List.length_drop]
  omega

/-- Python `str.lower` on a single code point, exact on the ASCII range
(A-Z map to a-z); code points outside ASCII are left unchanged.  This
under-approximates Python, which also lowercases non-ASCII letters such
as U+03A3; it is exact on every code point this development evaluates
(U+017F, used below, is already lowercase and fixed by `str.lower`). -/
def pyLowerChar (c : Char) : Char :=
  if 65 ≤ c.toNat ∧ c.toNat ≤ 90 then Char.ofNat (c.toNat + 32) else c

/-- Python `str.upper` on a single code point, exact on the ASCII range
and on the two non-ASCII letters with one-to-one uppercase mappings
evaluated below: U+017F latin small letter long s maps to `S` and U+0131
latin small letter dotless i maps to `I`, as in CPython.  All other code
points are left unchanged, under-approximating Python. -/
def pyUpperChar (c : Char) : Char :=
  if 97 ≤ c.toNat ∧ c.toNat ≤ 122 then Char.ofNat (c.toNat - 32)
  else if c.toNat = 383 then 'S'
  else if c.toNat = 305 then 'I'
  else c

/-- Model of Python `str.lower` (ASCII fragment, applied pointwise). -/
def pyLower (s : PyStr) : PyStr :=
  s.map pyLowerChar

/-- Model of Python `str.upper` (ASCII fragment, applied pointwise). -/
def pyUpper (s : PyStr) : PyStr :=
  s.map pyUpperChar

/-- Model of Python `str.capitalize` (ASCII fragment): first code point
uppercased, the rest lowercased. -/
def pyCapitalize : PyStr → PyStr
  | [] => []
  | c :: cs => pyUpperChar c :: cs.map pyLowerChar

/-- Characters stripped by Python `str.strip()` (ASCII whitespace). -/
def pyIsSpace (c : Char) : Bool :=
  c == ' ' || c == '\t' || c == '\n' || c == '\r' ||
    c.toNat == 11 || c.toNat == 12

/-- Model of Python `str.strip()` (ASCII whitespace fragment). -/
def pyStrip (s : PyStr) : PyStr :=
  ((s.dropWhile pyIsSpace).reverse.dropWhile pyIsSpace).reverse

/-- The fixed extension-to-language mapping `SUPPORTED_EXTENSIONS`
(`code_documentation.py` lines 15-31; the copies in the other two scripts
are identical). -/
def SUPPORTED_EXTENSIONS : List (PyStr × PyStr) :=
  [(".cs".toList, "csharp".toList),
    (".ts".toList, "typescript".toList),
    (".java".toList, "java".toList),
    (".py".toList, "python".toList),
    (".js".toList, "javascript".toList),
    (".json".toList, "json".toList),
    (".config".toList, "config".toList),
    (".xml".toList, "xml".toList),
    (".yaml".toList, "yaml".toList),
    (".yml".toList, "yaml".toList),
    (".env".toList, "environment configuration".toList),
    (".txt".toList, "text".toList),
    (".sql".toList, "sql".toList),
    (".go".toList, "golang".toList),
    (".php".toList, "php".toList)]

/-- Python `dict.get(key, default)` over an association list. -/
def dictGet : List (PyStr × PyStr) → PyStr → PyStr → PyStr
  | [], _, dflt => dflt
  | (k, v) :: rest, key, dflt => if key = k then v else dictGet rest key dflt

/-- Model of `get_file_type(extension)` (`code_documentation.py`
lines 38-39): `SUPPORTED_EXTENSIONS.get(extension.lower(), 'unknown')`. -/
def get_file_type (extension : PyStr) : PyStr :=
  dictGet SUPPORTED_EXTENSIONS (pyLower extension) ("unknown".toList)

/-- Outcome of the `requests.post` / `raise_for_status` / `json()` body of
an inference call, abstracting the network: a successful call carries the
`response` field text; the three failure constructors correspond to the
three `except` arms of the source. -/
inductive OllamaOutcome where
  | success (response : PyStr)
  | connectionError
  | httpError (responseText : PyStr)
  | otherError (message : PyStr)

/-- Model of `document_with_ollama` (`code_documentation.py` lines
120-135): the `try/except` dispatch on the inference call outcome.  Every
outcome, including each failure, yields a result string — the function
never propagates an exception to its caller. -/
def document_with_ollama (o : OllamaOutcome) (apiUrl model : PyStr) : PyStr :=
  match o with
  | .success r => pyStrip r
  | .connectionError =>
    "**Error: Could not connect to Ollama.** Please ensure it\x27s running at ".toList ++
      apiUrl ++ " and the model \x27".toList ++ model ++ "\x27 is downloaded.".toList
  | .httpError t =>
    "**Error from Ollama API:** ".toList ++ t ++ ". Check Ollama logs for details.".toList
  | .otherError e =>
    "**Error:** An unexpected error occurred while communicating with Ollama: ".toList ++ e

/-- Model of `call_ollama_api` (`code_analyzer.py` lines 112-126): same
`try/except` structure with slightly shorter messages. -/
def call_ollama_api (o : OllamaOutcome) : PyStr :=
  match o with
  | .success r => pyStrip r
  | .connectionError =>
    "**Error: Could not connect to Ollama.** Please ensure it\x27s running.".toList
  | .httpError t =>
    "**Error from Ollama API:** ".toList ++ t ++ ". Check Ollama logs.".toList
  | .otherError e =>
    "**Error:** An unexpected error occurred while communicating with Ollama: ".toList ++ e

/-- Decimal rendering of a natural number, as Python `str(i)`. -/
def natStr (n : Nat) : PyStr :=
  (Nat.repr n).toList

/-- The part annotation `f"(Part {i+1} of {len(chunks)})"`
(`code_documentation.py` line 213), for 1-based part `i` of `n`. -/
def partAnn (i n : Nat) : PyStr :=
  "(Part ".toList ++ natStr i ++ " of ".toList ++ natStr n ++ ")".toList

/-- The documentation prompt built by `document_with_ollama`
(`code_documentation.py` lines 90-107), as a function of the interpolated
pieces. -/
def documentPrompt (chunk_text file_name file_type part_info : PyStr) : PyStr :=
  "You are an expert software engineer and technical writer.\nYour task is to analyze the following ".toList ++
    file_type ++
    " code or configuration snippet from the file \x27".toList ++
    file_name ++
    "\x27.\n".toList ++
    part_info ++
    " # This will be like \"(Part 1 of 3)\" or empty for single chunks.\n\nProvide a detailed, human-readable explanation of what this code/config snippet does, its purpose, and its inner workings.\nFocus on clarity and conciseness, making it easy for non-experts to understand.\n\n**Key Requirements:**\n1.  **For Code:** Identify any classes, functions, methods, or significant variables/enums within this snippet.\n    **Bold their names** using Markdown (e.g., **ClassName**, **function_name()**, **CONSTANT_NAME**).\n    Explain their roles and how they contribute to the overall functionality.\n2.  **For Configuration Files:** Explain the structure, purpose of different sections/keys, and what values they typically hold.\n3.  **Overall Context:** If this is part of a larger file, try to infer its context or contribution to the whole.\n\nCode/Configuration snippet:\n".toList ++
    chunk_text ++
    "\nDocumentation:\n".toList

/-- The per-file document header (`code_documentation.py` lines 206-208). -/
def docHeader (relPath file_type : PyStr) : PyStr :=
  "# Documentation for `".toList ++ relPath ++
    "`\n\n**Original File Type:** ".toList ++ pyCapitalize file_type ++
    "\n\n--- \n\n".toList

/-- The chunk loop of `main_documentation` (`code_documentation.py` lines
212-216): one section per chunk, appended in order.  `i` is the 0-based
index of the next chunk, `n` the total chunk count, and `ollama` maps a
prompt to the text the inference call returns for it. -/
def docParts (file_name file_type : PyStr) (n : Nat) (ollama : PyStr → PyStr) :
    Nat → List PyStr → PyStr
  | _, [] => []
  | i, c :: cs =>
    "## Part ".toList ++ natStr (i + 1) ++ "\n\n".toList ++
      ollama (documentPrompt c file_name file_type (partAnn (i + 1) n)) ++
      "\n\n---\n\n".toList ++
      docParts file_name file_type n ollama (i + 1) cs

/-- One section of the per-file document, as a function of the
(0-based index, chunk) pair; `docParts` produces exactly these in order. -/
def docSection (file_name file_type : PyStr) (n : Nat) (ollama : PyStr → PyStr)
    (p : Nat × PyStr) : PyStr :=
  "## Part ".toList ++ natStr (p.1 + 1) ++ "\n\n".toList ++
    ollama (documentPrompt p.2 file_name file_type (partAnn (p.1 + 1) n)) ++
    "\n\n---\n\n".toList

/-- Model of the per-file document assembly of `main_documentation`
(`code_documentation.py` lines 204-220): chunk, then either one section
per chunk with part headers (when more than one chunk) or a single
inference result over the whole content with empty part annotation. -/
def full_markdown_doc (relPath file_name file_type content : PyStr)
    (chunk_size : Nat) (ollama : PyStr → PyStr) : PyStr :=
  let chunks := chunk_content content chunk_size
  docHeader relPath file_type ++
    (if 1 < chunks.length then
      docParts file_name file_type chunks.length ollama 0 chunks
    else
      ollama (documentPrompt content file_name file_type []))

/-- Lexicographic comparison of code-point sequences, as Python string
`<=` on the sort keys. -/
def lexLe : PyStr → PyStr → Bool
  | [], _ => true
  | _ :: _, [] => false
  | a :: as, b :: bs =>
    if a.toNat < b.toNat then true
    else if b.toNat < a.toNat then false
    else lexLe as bs

/-- The sort key used by `generate_table_of_contents`
(`code_documentation.py` line 157): entries compare by the lowercased
relative path. -/
def tocKeyLe (p q : PyStr × PyStr) : Prop :=
  lexLe (pyLower p.1) (pyLower q.1) = true

instance : DecidableRel tocKeyLe :=
  fun p q => inferInstanceAs (Decidable (lexLe (pyLower p.1) (pyLower q.1) = true))

/-- The fixed header of `TABLE_OF_CONTENTS.md`
(`code_documentation.py` lines 150-152). -/
def tocHeader : PyStr :=
  "# Project Documentation - Table of Contents\n\nThis file lists all documentation for project files.\n\n---\n\n".toList

/-- One index line (`code_documentation.py` line 161); `relTo` abstracts
`os.path.relpath(md_full_path, output_dir)`. -/
def tocEntry (relTo : PyStr → PyStr) (p : PyStr × PyStr) : PyStr :=
  "* [`".toList ++ p.1 ++ "`](".toList ++ relTo p.2 ++ ")\n".toList

/-- Model of `generate_table_of_contents(documented_files_info, output_dir)`
(`code_documentation.py` lines 148-163): header, then either the
no-files notice or one line per entry after the stable case-insensitive
sort.  Python `list.sort(key=...)` is a stable sort by the key, which the
keyed insertion sort reproduces exactly. -/
def generate_table_of_contents (documented_files_info : List (PyStr × PyStr))
    (relTo : PyStr → PyStr) : PyStr :=
  tocHeader ++
    (if documented_files_info = [] then
      "No supported files were documented.\n".toList
    else
      ((List.insertionSort tocKeyLe documented_files_info).map (tocEntry relTo)).flatten)

/-- One scanned source file as the main loop sees it: its relative path,
the storage path of its markdown document, the result of
`read_file_content` (`none` when both decodes fail), and whether
`save_markdown` succeeds for it. -/
structure FileRec where
  relPath : PyStr
  mdPath : PyStr
  content : Option PyStr
  saveOk : Bool
deriving DecidableEq

/-- The accumulation of `documented_files_info` over the per-file loop of
`main_documentation` (`code_documentation.py` lines 188-223): a file
contributes its pair exactly when it was read successfully and its
document was persisted. -/
def collect_documented : List FileRec → List (PyStr × PyStr)
  | [] => []
  | f :: fs =>
    match f.content with
    | none => collect_documented fs
    | some _ =>
      if f.saveOk then (f.relPath, f.mdPath) :: collect_documented fs
      else collect_documented fs

/-- How a run of `main_documentation` terminates: via `sys.exit(code)` or
by falling off the end. -/
inductive RunEnd where
  | exited (code : Nat)
  | completed
deriving DecidableEq

/-- Result of one run: how it ended, and the content handed to
`save_markdown` for `TABLE_OF_CONTENTS.md` when `generate_table_of_contents`
ran (`none` when the run ended before reaching it). -/
structure RunResult where
  ending : RunEnd
  toc : Option PyStr
deriving DecidableEq

/-- Control flow of `main_documentation(source_code_path, doc_output_path)`
(`code_documentation.py` lines 168-225): invalid source directory exits
with code 1; an empty scan exits with code 0 before any index is written;
otherwise the loop runs and the table of contents is generated at the
end. -/
def main_documentation (isDir : Bool) (files : List FileRec)
    (relTo : PyStr → PyStr) : RunResult :=
  if ¬isDir then ⟨.exited 1, none⟩
  else if files = [] then ⟨.exited 0, none⟩
  else ⟨.completed, some (generate_table_of_contents (collect_documented files) relTo)⟩

/-- The overall-summary prompt of `document_file_with_ollama`
(`deep_code_documentation.py` lines 126-137), over the full file
content. -/
def summaryPrompt (file_content file_name file_type : PyStr) : PyStr :=
  "You are an expert software engineer and technical writer.\n    Analyze the following ".toList ++
    file_type ++
    " code/configuration from the file \x27".toList ++
    file_name ++
    "\x27.\n    Provide a concise, high-level summary of its primary purpose, what problem it solves, and its main functionalities.\n    Keep it to 2-3 paragraphs.\n\n    Code/Configuration:\n    ```".toList ++
    file_type ++
    "\n    ".toList ++
    file_content ++
    "\n    ```\n\n    Summary:\n    ".toList

/-- The component-explanation prompt (`deep_code_documentation.py` lines
145-158), over the full file content. -/
def componentsPrompt (file_content file_name file_type : PyStr) : PyStr :=
  "You are an expert software engineer and technical writer.\n    Analyze the following ".toList ++
    file_type ++
    " code/configuration from the file \x27".toList ++
    file_name ++
    "\x27.\n    Identify and explain the purpose and role of all significant classes, functions, methods, variables, constants, and enums.\n    For each identified component, provide a clear, concise description.\n    **Bold their names** using Markdown (e.g., **ClassName**, **function_name()**, **CONSTANT_NAME**).\n    Organize this information clearly using subheadings (e.g., \x27Classes\x27, \x27Functions\x27, \x27Variables\x27).\n\n    Code/Configuration:\n    ```".toList ++
    file_type ++
    "\n    ".toList ++
    file_content ++
    "\n    ```\n\n    Detailed Explanation of Components:\n    ".toList

/-- The usage-example prompt (`deep_code_documentation.py` lines 167-180),
over the full file content. -/
def examplesPrompt (file_content file_name file_type : PyStr) : PyStr :=
  "You are an expert software engineer and technical writer.\n    Consider the following ".toList ++
    file_type ++
    " code from the file \x27".toList ++
    file_name ++
    "\x27.\n    Does this code require usage examples to be properly understood?\n    If YES, provide 1-3 clear and concise code examples demonstrating how to use the main functionalities of this code.\n    Use code blocks for examples. Explain what each example does.\n    If NO (e.g., it\x27s a configuration file, a simple script that runs on its own, or a highly internal utility), just state \x27N/A\x27 or \x27No specific usage examples are typically required for this type of file.\x27.\n\n    Code/Configuration:\n    ```".toList ++
    file_type ++
    "\n    ".toList ++
    file_content ++
    "\n    ```\n\n    Usage Examples:\n    ".toList

/-- The three inference prompts `document_file_with_ollama` issues for one
file, in source order (summary, components, examples). -/
def deepDocPrompts (file_content file_name file_type : PyStr) : List PyStr :=
  [summaryPrompt file_content file_name file_type,
    componentsPrompt file_content file_name file_type,
    examplesPrompt file_content file_name file_type]

/-- Model of `document_file_with_ollama(file_content, file_name, file_type)`
(`deep_code_documentation.py` lines 121-186): three facet calls over the
full file content, concatenated with their fixed headers in the source
order summary, components, examples, whatever each call returns. -/
def document_file_with_ollama (file_content file_name file_type : PyStr)
    (ollama : PyStr → PyStr) : PyStr :=
  let summary := ollama (summaryPrompt file_content file_name file_type)
  let components_doc := ollama (componentsPrompt file_content file_name file_type)
  let examples_doc := ollama (examplesPrompt file_content file_name file_type)
  "## Overall Summary\n\n".toList ++ summary ++ "\n\n".toList ++ "---\n\n".toList ++
    "## Properties, Variables, and Functions\n\n".toList ++ components_doc ++
    "\n\n".toList ++ "---\n\n".toList ++
    "## Examples on How to Use the Code\n\n".toList ++ examples_doc ++
    "\n\n".toList ++ "---\n\n".toList

end MimirDoc

namespace MimirDoc

theorem takeBoundary_append (c : Char) (cs : List Char) :
    (takeBoundary c cs).1 ++ (takeBoundary c cs).2 = c :: cs := by
  unfold takeBoundary
  cases cs with
  | nil => rfl
  | cons d ds =>
    by_cases hcd : c == '\r' && d == '\n'
    · simp [hcd]
    · simp [hcd]

theorem takeLine_append (s : List Char) :
    (takeLine s).1 ++ (takeLine s).2 = s := by
  induction s with
  | nil => rfl
  | cons c cs ih =>
    rw [takeLine]
    by_cases hb : isLineBoundary c
    · rw [if_pos hb]
      exact takeBoundary_append c cs
    · rw [if_neg hb]
      simpa using ih

theorem takeLine_snd_length (s : List Char) (h : s ≠ []) :
    (takeLine s).2.length < s.length := by
  induction s with
  | nil => simp at h
  | cons c cs ih =>
    rw [takeLine]
    by_cases hb : isLineBoundary c
    · rw [if_pos hb]
      unfold takeBoundary
      cases cs with
      | nil => simp
      | cons d ds =>
        by_cases hcd : c == '\r' && d == '\n'
        · simp only [hcd, if_true]
          simp
          omega
        · simp [hcd]
    · rw [if_neg hb]
      cases cs with
      | nil => simp [takeLine]
      | cons d ds =>
        have := ih (by simp)
        simpa using Nat.lt_succ_of_lt this

theorem takeLine_fst_ne (s : List Char) (h : s ≠ []) :
    (takeLine s).1 ≠ [] := by
  cases s with
  | nil => simp at h
  | cons c cs =>
    rw [takeLine]
    by_cases hb : isLineBoundary c
    · rw [if_pos hb]
      unfold takeBoundary
      cases cs with
      | nil => simp
      | cons d ds =>
        by_cases hcd : c == '\r' && d == '\n'
        · simp [hcd]
        · simp [hcd]
    · simp [hb]

theorem splitlinesAux_join (fuel : Nat) :
    ∀ s : List Char, s.length ≤ fuel → (splitlinesAux fuel s).flatten = s := by
  induction fuel with
  | zero =>
    intro s hs
    have : s = [] := by
      cases s with
      | nil => rfl
      | cons c cs => simp at hs
    subst this
    rfl
  | succ n ih =>
    intro s hs
    cases s with
    | nil => rfl
    | cons c cs =>
      rw [splitlinesAux]
      have hlt : (takeLine (c :: cs)).2.length < (c :: cs).length :=
        takeLine_snd_length _ (by simp)
      have hle : (takeLine (c :: cs)).2.length ≤ n := by
        simp only [List.length_cons] at hlt hs
        omega
      simp only [List.flatten_cons, ih _ hle, takeLine_append]

theorem splitlines_join (s : List Char) :
    (splitlines_keepends s).flatten = s :=
  splitlinesAux_join s.length s le_rfl

theorem splitlinesAux_mem_ne (fuel : Nat) :
    ∀ s : List Char, ∀ l ∈ splitlinesAux fuel s, l ≠ [] := by
  induction fuel with
  | zero => intro s l hl; simp [splitlinesAux] at hl
  | succ n ih =>
    intro s l hl
    cases s with
    | nil => simp [splitlinesAux] at hl
    | cons c cs =>
      rw [splitlinesAux] at hl
      simp only [List.mem_cons] at hl
      rcases hl with rfl | hl
      · exact takeLine_fst_ne _ (by simp)
      · exact ih _ l hl

theorem splitlines_mem_ne (s : List Char) :
    ∀ l ∈ splitlines_keepends s, l ≠ [] :=
  splitlinesAux_mem_ne s.length s

theorem splitlines_ne_nil (s : List Char) (h : s ≠ []) :
    splitlines_keepends s ≠ [] := by
  cases s with
  | nil => simp at h
  | cons c cs =>
    unfold splitlines_keepends
    rw [List.length_cons, splitlinesAux]
    simp

theorem chunkGo_eq_map_join (b : Nat) :
    ∀ lines buf len,
      chunkGo b lines buf len =
        (chunkGroups b lines buf len).map List.flatten := by
  intro lines
  induction lines with
  | nil =>
    intro buf len
    rw [chunkGo, chunkGroups]
    by_cases h : buf = [] <;> simp [h]
  | cons l rest ih =>
    intro buf len
    rw [chunkGo, chunkGroups]
    by_cases h : len + l.length > b ∧ buf ≠ []
    · rw [if_pos h, if_pos h, List.map_cons, ih]
    · rw [if_neg h, if_neg h, ih]

theorem chunkGroups_flatten (b : Nat) :
    ∀ lines buf len, (chunkGroups b lines buf len).flatten = buf ++ lines := by
  intro lines
  induction lines with
  | nil =>
    intro buf len
    rw [chunkGroups]
    by_cases h : buf = [] <;> simp [h]
  | cons l rest ih =>
    intro buf len
    rw [chunkGroups]
    by_cases h : len + l.length > b ∧ buf ≠ []
    · rw [if_pos h, List.flatten_cons, ih]
      simp
    · rw [if_neg h, ih]
      simp

theorem chunkGroups_sound (b : Nat) (L : List PyStr) :
    ∀ lines buf,
      (∀ x ∈ buf, x ∈ L) → (∀ x ∈ lines, x ∈ L) →
      (buf = [] ∨ buf.length = 1 ∨ buf.flatten.length ≤ b) →
      ∀ g ∈ chunkGroups b lines buf buf.flatten.length,
        g ≠ [] ∧ (∀ x ∈ g, x ∈ L) ∧ (g.length = 1 ∨ g.flatten.length ≤ b) := by
  intro lines
  induction lines with
  | nil =>
    intro buf hbuf _ hinv g hg
    rw [chunkGroups] at hg
    by_cases h : buf = []
    · simp [h] at hg
    · rw [if_neg h] at hg
      simp only [List.mem_singleton] at hg
      subst hg
      refine ⟨h, hbuf, ?_⟩
      rcases hinv with h' | h' | h'
      · exact absurd h' h
      · exact Or.inl h'
      · exact Or.inr h'
  | cons l rest ih =>
    intro buf hbuf hlines hinv g hg
    rw [chunkGroups] at hg
    have hl : l ∈ L := hlines l (by simp)
    have hrest : ∀ x ∈ rest, x ∈ L := fun x hx => hlines x (by simp [hx])
    by_cases h : buf.flatten.length + l.length > b ∧ buf ≠ []
    · rw [if_pos h] at hg
      simp only [List.mem_cons] at hg
      rcases hg with rfl | hg
      · refine ⟨h.2, hbuf, ?_⟩
        rcases hinv with h' | h' | h'
        · exact absurd h' h.2
        · exact Or.inl h'
        · exact Or.inr h'
      · have hlen : l.length = ([l] : List (List Char)).flatten.length := by simp
        rw [hlen] at hg
        exact ih [l] (by simpa using hl) hrest (Or.inr (Or.inl rfl)) g hg
    · rw [if_neg h] at hg
      have hcase : buf.flatten.length + l.length ≤ b ∨ buf = [] := by
        by_cases hb' : buf = []
        · exact Or.inr hb'
        · left
          by_contra hgt
          exact h ⟨by omega, hb'⟩
      have hlen : buf.flatten.length + l.length =
          (buf ++ [l]).flatten.length := by simp
      rw [hlen] at hg
      have hbuf' : ∀ x ∈ buf ++ [l], x ∈ L := by
        intro x hx
        rcases List.mem_append.mp hx with hx | hx
        · exact hbuf x hx
        · simp only [List.mem_singleton] at hx
          exact hx ▸ hl
      refine ih (buf ++ [l]) hbuf' hrest ?_ g hg
      rcases hcase with hle | hnil
      · right; right; simpa using hle
      · subst hnil
        right; left; simp

theorem chunkGroups_ne_nil (b : Nat) :
    ∀ lines buf len, buf ≠ [] ∨ lines ≠ [] →
      chunkGroups b lines buf len ≠ [] := by
  intro lines
  induction lines with
  | nil =>
    intro buf len h
    rcases h with h | h
    · rw [chunkGroups, if_neg h]
      simp
    · simp at h
  | cons l rest ih =>
    intro buf len _
    rw [chunkGroups]
    by_cases h : len + l.length > b ∧ buf ≠ []
    · rw [if_pos h]
      simp
    · rw [if_neg h]
      exact ih _ _ (Or.inl (by simp))

/-- Claim C2: every chunk is within the budget, except that an over-budget
chunk consists of exactly one line of the input (emitted verbatim and
alone, never split mid-line). -/
theorem chunk_content_budget (text : PyStr) (budget : Nat)
    (hb : 0 < budget) :
    ∀ c ∈ chunk_content text budget,
      c.length ≤ budget ∨ c ∈ splitlines_keepends text := by
  intro c hc
  unfold chunk_content at hc
  by_cases h : text = []
  · simp [h] at hc
  · rw [if_neg h, chunkGo_eq_map_join] at hc
    rcases List.mem_map.mp hc with ⟨g, hg, rfl⟩
    have h0 : (0 : Nat) = (([] : List (List Char)).flatten.length) := by simp
    rw [h0] at hg
    have := chunkGroups_sound budget (splitlines_keepends text)
      (splitlines_keepends text) [] (by simp) (fun x hx => hx)
      (Or.inl rfl) g hg
    rcases this with ⟨hne, hmem, hlen | hle⟩
    · right
      cases g with
      | nil => exact absurd rfl hne
      | cons x xs =>
        have : xs = [] := by
          simpa using hlen
        subst this
        simpa using hmem x (by simp)
    · exact Or.inl hle

theorem chunk_content_budget_witness :
    0 < 4 ∧
      ∀ c ∈ chunk_content ("ab\nlongline\ncd\n".toList) 4,
        c.length ≤ 4 ∨ c ∈ splitlines_keepends ("ab\nlongline\ncd\n".toList) :=
  ⟨by decide, chunk_content_budget ("ab\nlongline\ncd\n".toList) 4 (by decide)⟩

/-- Claim C9: for non-empty input and positive budget, `chunk_content`
returns at least one chunk, every chunk is non-empty, and every chunk is a
concatenation of consecutive complete lines of the input (as produced by
splitting with terminators preserved). -/
theorem chunk_content_line_aligned (text : PyStr) (budget : Nat)
    (ht : text ≠ []) (hb : 0 < budget) :
    chunk_content text budget ≠ [] ∧
      (∀ c ∈ chunk_content text budget, c ≠ []) ∧
      ∃ groups : List (List PyStr),
        groups.flatten = splitlines_keepends text ∧
        chunk_content text budget = groups.map List.flatten ∧
        ∀ g ∈ groups, g ≠ [] := by
  have hlines : splitlines_keepends text ≠ [] := splitlines_ne_nil text ht
  have hsound := chunkGroups_sound budget (splitlines_keepends text)
    (splitlines_keepends text) [] (by simp) (fun x hx => hx) (Or.inl rfl)
  have h0 : (([] : List (List Char)).flatten.length) = (0 : Nat) := by simp
  rw [h0] at hsound
  refine ⟨?_, ?_, ?_⟩
  · unfold chunk_content
    rw [if_neg ht, chunkGo_eq_map_join]
    intro hmap
    exact chunkGroups_ne_nil budget (splitlines_keepends text) [] 0
      (Or.inr hlines) (by simpa using hmap)
  · intro c hc
    unfold chunk_content at hc
    rw [if_neg ht, chunkGo_eq_map_join] at hc
    rcases List.mem_map.mp hc with ⟨g, hg, rfl⟩
    rcases hsound g hg with ⟨hne, hmem, _⟩
    cases g with
    | nil => exact absurd rfl hne
    | cons x xs =>
      have hx : x ≠ [] := splitlines_mem_ne text x (hmem x (by simp))
      simp only [List.flatten_cons]
      intro hcon
      exact hx (List.append_eq_nil.mp hcon).1
  · refine ⟨chunkGroups budget (splitlines_keepends text) [] 0, ?_, ?_, ?_⟩
    · simpa using chunkGroups_flatten budget (splitlines_keepends text) [] 0
    · unfold chunk_content
      rw [if_neg ht, chunkGo_eq_map_join]
    · intro g hg
      exact (hsound g hg).1

theorem chunk_content_line_aligned_witness :
    ("ab\ncd".toList ≠ [] ∧ 0 < 3) ∧
      (chunk_content ("ab\ncd".toList) 3 ≠ [] ∧
        (∀ c ∈ chunk_content ("ab\ncd".toList) 3, c ≠ []) ∧
        ∃ groups : List (List PyStr),
          groups.flatten = splitlines_keepends ("ab\ncd".toList) ∧
          chunk_content ("ab\ncd".toList) 3 = groups.map List.flatten ∧
          ∀ g ∈ groups, g ≠ []) :=
  ⟨⟨by decide, by decide⟩,
    chunk_content_line_aligned ("ab\ncd".toList) 3 (by decide) (by decide)⟩

/-- Claim C1: chunking is a lossless round-trip.  For every text and every
positive budget, concatenating the chunks returned by
`chunk_content(text, budget)` in order yields exactly the original text;
in particular empty text yields zero chunks. -/
theorem chunk_content_roundtrip (text : PyStr) (budget : Nat)
    (hb : 0 < budget) :
    (chunk_content text budget).flatten = text ∧
      chunk_content [] budget = [] := by
  constructor
  · unfold chunk_content
    by_cases h : text = []
    · simp [h]
    · simp only [h, if_false]
      rw [chunkGo_eq_map_join]
      have h1 : ((chunkGroups budget (splitlines_keepends text) [] 0).map
          List.flatten).flatten =
          ((chunkGroups budget (splitlines_keepends text) [] 0).flatten).flatten := by
        rw [List.flatten_flatten]
      rw [h1, chunkGroups_flatten]
      simpa using splitlines_join text
  · rfl

theorem chunk_content_roundtrip_witness :
    0 < 5 ∧
      ((chunk_content ("ab\ncd\nxyzwvu\nef".toList) 5).flatten =
          "ab\ncd\nxyzwvu\nef".toList ∧
        chunk_content [] 5 = []) :=
  ⟨by decide, chunk_content_roundtrip ("ab\ncd\nxyzwvu\nef".toList) 5 (by decide)⟩

theorem sumLen_append (a c : List PyStr) :
    sumLen (a ++ c) = sumLen a + sumLen c := by
  simp [sumLen]

theorem extFit_le_length (b : Nat) :
    ∀ ls acc, extFit b acc ls ≤ ls.length := by
  intro ls
  induction ls with
  | nil => intro acc; simp [extFit]
  | cons l t ih =>
    intro acc
    rw [extFit]
    by_cases h : acc + l.length ≤ b
    · rw [if_pos h]
      have := ih (acc + l.length)
      simp only [List.length_cons]
      omega
    · rw [if_neg h]
      simp

theorem extFit_cumul (b : Nat) :
    ∀ ls acc, 0 < extFit b acc ls →
      acc + sumLen (ls.take (extFit b acc ls)) ≤ b := by
  intro ls
  induction ls with
  | nil => intro acc h; simp [extFit] at h
  | cons l t ih =>
    intro acc h
    rw [extFit] at h ⊢
    by_cases hc : acc + l.length ≤ b
    · rw [if_pos hc] at h ⊢
      rw [List.take_succ_cons]
      have hsum : sumLen (l :: t.take (extFit b (acc + l.length) t)) =
          l.length + sumLen (t.take (extFit b (acc + l.length) t)) := by
        simp [sumLen]
      rw [hsum]
      by_cases he : 0 < extFit b (acc + l.length) t
      · have := ih (acc + l.length) he
        omega
      · have : extFit b (acc + l.length) t = 0 := by omega
        rw [this]
        simpa using hc
    · rw [if_neg hc] at h
      simp at h

theorem extFit_ge (b : Nat) :
    ∀ ls m acc, m ≤ ls.length → acc + sumLen (ls.take m) ≤ b →
      m ≤ extFit b acc ls := by
  intro ls
  induction ls with
  | nil =>
    intro m acc hm _
    have hm0 : m = 0 := by simpa using hm
    simp [hm0]
  | cons l t ih =>
    intro m acc hm hsum
    cases m with
    | zero => simp
    | succ m' =>
      rw [List.take_succ_cons] at hsum
      have hsum' : acc + (l.length + sumLen (t.take m')) ≤ b := by
        have : sumLen (l :: t.take m') = l.length + sumLen (t.take m') := by
          simp [sumLen]
        rw [this] at hsum
        exact hsum
      have hc : acc + l.length ≤ b := by omega
      rw [extFit, if_pos hc]
      have := ih m' (acc + l.length) (by simpa using hm) (by omega)
      omega

theorem chunkGroups_eq_chunksG (b : Nat) :
    ∀ rest buf len, buf ≠ [] →
      chunkGroups b rest buf len =
        (buf ++ rest.take (extFit b len rest)) ::
          chunksG b (rest.drop (extFit b len rest)) := by
  intro rest
  induction rest with
  | nil =>
    intro buf len hbuf
    rw [chunkGroups, if_neg hbuf]
    simp [extFit, chunksG]
  | cons l ls ih =>
    intro buf len hbuf
    rw [chunkGroups]
    by_cases h : len + l.length > b
    · rw [if_pos ⟨h, hbuf⟩, ih [l] l.length (by simp)]
      have h0 : extFit b len (l :: ls) = 0 := by
        rw [extFit, if_neg (by omega)]
      rw [h0]
      simp only [List.take_zero, List.drop_zero, List.append_nil]
      rw [chunksG]
      simp
    · have hle : len + l.length ≤ b := by omega
      rw [if_neg (by intro hc; exact absurd hc.1 (by omega)),
        ih (buf ++ [l]) (len + l.length) (by simp)]
      have hext : extFit b len (l :: ls) = extFit b (len + l.length) ls + 1 := by
        rw [extFit, if_pos hle]
      rw [hext]
      simp only [List.take_succ_cons, List.drop_succ_cons]
      simp

theorem chunkGroups_nil_buf (b : Nat) (lines : List PyStr) (h : lines ≠ []) :
    chunkGroups b lines [] 0 = chunksG b lines := by
  cases lines with
  | nil => exact absurd rfl h
  | cons l ls =>
    rw [chunkGroups, if_neg (by intro hc; exact hc.2 rfl)]
    have := chunkGroups_eq_chunksG b ls [l] (0 + l.length) (by simp)
    simp only [Nat.zero_add] at this ⊢
    rw [List.nil_append, this, chunksG]
    simp

theorem chunksG_count_mono (b1 b2 : Nat) (hb : b1 ≤ b2) :
    ∀ n xs ys, xs.length ≤ n → ys <:+ xs →
      (chunksG b2 ys).length ≤ (chunksG b1 xs).length := by
  intro n
  induction n with
  | zero =>
    intro xs ys hn hsuf
    have hxs : xs = [] := List.length_eq_zero.mp (Nat.le_zero.mp hn)
    subst hxs
    have hys : ys = [] := List.suffix_nil.mp hsuf
    subst hys
    simp [chunksG]
  | succ n ih =>
    intro xs ys hn hsuf
    cases ys with
    | nil => simp [chunksG]
    | cons y t =>
      cases xs with
      | nil =>
        have := List.suffix_nil.mp hsuf
        simp at this
      | cons x r =>
        obtain ⟨pre, hpre⟩ := hsuf
        set d := pre.length with hd
        set k1 := extFit b1 x.length r with hk1
        set k2 := extFit b2 y.length t with hk2
        have hklen : k1 ≤ r.length := extFit_le_length b1 r x.length
        have hlenxs : (x :: r).length = d + (y :: t).length := by
          rw [← hpre]
          simp [hd]
        have hdrop : (x :: r).drop d = y :: t := by
          rw [← hpre, hd, List.drop_left]
        -- key arithmetic: d + k2 ≥ k1
        have hkey : k1 ≤ d + k2 := by
          by_cases hcase : k1 ≤ d
          · omega
          · have hdk : d < k1 := by omega
            have hk1pos : 0 < k1 := by omega
            have hcum : x.length + sumLen (r.take k1) ≤ b1 :=
              extFit_cumul b1 r x.length hk1pos
            have htake : sumLen ((x :: r).take (k1 + 1)) ≤ b1 := by
              rw [List.take_succ_cons]
              have : sumLen (x :: r.take k1) =
                  x.length + sumLen (r.take k1) := by simp [sumLen]
              omega
            have hdsum : d + (k1 + 1 - d) = k1 + 1 := by omega
            have hsplit : (x :: r).take (d + (k1 + 1 - d)) =
                (x :: r).take d ++ ((x :: r).drop d).take (k1 + 1 - d) :=
              List.take_add _ _ _
            have htake' : sumLen ((x :: r).take (d + (k1 + 1 - d))) ≤ b1 := by
              rw [hdsum]
              exact htake
            have hsuffsum : sumLen (((x :: r).drop d).take (k1 + 1 - d)) ≤ b1 := by
              rw [hsplit, sumLen_append] at htake'
              omega
            have hidx : k1 + 1 - d = (k1 - d) + 1 := by omega
            rw [hdrop, hidx, List.take_succ_cons] at hsuffsum
            have hys : y.length + sumLen (t.take (k1 - d)) ≤ b1 := by
              have : sumLen (y :: t.take (k1 - d)) =
                  y.length + sumLen (t.take (k1 - d)) := by simp [sumLen]
              omega
            have hmlen : k1 - d ≤ t.length := by
              simp only [List.length_cons] at hlenxs
              omega
            have hge : k1 - d ≤ k2 :=
              extFit_ge b2 t (k1 - d) y.length hmlen (by omega)
            omega
        -- the remaining suffix relation
        have hsufnext : t.drop k2 <:+ r.drop k1 := by
          have h1 : t.drop k2 = (x :: r).drop (d + 1 + k2) := by
            have heq : (x :: r).drop (d + 1 + k2) =
                ((x :: r).drop d).drop (1 + k2) := by
              rw [List.drop_drop]
              congr 1
              omega
            rw [heq, hdrop, Nat.add_comm 1 k2, List.drop_succ_cons]
          have h2 : r.drop k1 = (x :: r).drop (k1 + 1) :=
            List.drop_succ_cons.symm
          rw [h1, h2]
          have h3 : d + 1 + k2 = (k1 + 1) + (d + k2 - k1) := by omega
          rw [h3, ← List.drop_drop]
          exact List.drop_suffix _ _
        have hlen' : (r.drop k1).length ≤ n := by
          simp only [List.length_drop]
          simp only [List.length_cons] at hn
          omega
        have hrec := ih (r.drop k1) (t.drop k2) hlen' hsufnext
        rw [chunksG, chunksG]
        simp only [List.length_cons, ← hk1, ← hk2]
        omega

/-- Claim C6: for fixed text and positive budgets `b1 ≤ b2`, the number of
chunks at budget `b1` is at least the number at budget `b2` — reducing the
budget never decreases the chunk count. -/
theorem chunk_count_monotone (text : PyStr) (b1 b2 : Nat)
    (h1 : 0 < b1) (h12 : b1 ≤ b2) :
    (chunk_content text b2).length ≤ (chunk_content text b1).length := by
  by_cases ht : text = []
  · simp [chunk_content, ht]
  · have hcount : ∀ b : Nat, (chunk_content text b).length =
        (chunksG b (splitlines_keepends text)).length := by
      intro b
      unfold chunk_content
      rw [if_neg ht, chunkGo_eq_map_join, List.length_map,
        chunkGroups_nil_buf b _ (splitlines_ne_nil text ht)]
    rw [hcount b1, hcount b2]
    exact chunksG_count_mono b1 b2 h12 (splitlines_keepends text).length
      (splitlines_keepends text) (splitlines_keepends text) le_rfl
      (List.suffix_refl _)

theorem chunk_count_monotone_witness :
    (0 < 3 ∧ 3 ≤ 7) ∧
      (chunk_content ("ab\ncd\nef\ngh\n".toList) 7).length ≤
        (chunk_content ("ab\ncd\nef\ngh\n".toList) 3).length :=
  ⟨⟨by decide, by decide⟩,
    chunk_count_monotone ("ab\ncd\nef\ngh\n".toList) 3 7 (by decide) (by decide)⟩

theorem char_toNat_ofNat (n : Nat) (h : n ≤ 200) : (Char.ofNat n).toNat = n := by
  unfold Char.ofNat
  split
  · rfl
  · rename_i hv
    exfalso
    apply hv
    left
    omega

theorem pyLowerChar_eq_self {c : Char}
    (h : ¬(65 ≤ c.toNat ∧ c.toNat ≤ 90)) : pyLowerChar c = c :=
  if_neg h

theorem pyLowerChar_not_upper (c : Char) :
    ¬(65 ≤ (pyLowerChar c).toNat ∧ (pyLowerChar c).toNat ≤ 90) := by
  unfold pyLowerChar
  split
  · rename_i h
    rw [char_toNat_ofNat _ (by omega)]
    omega
  · rename_i h
    exact h

theorem pyLowerChar_upperChar_ascii (c : Char) (hc : c.toNat < 128) :
    pyLowerChar (pyUpperChar c) = pyLowerChar c := by
  by_cases h : 97 ≤ c.toNat ∧ c.toNat ≤ 122
  · have h1 : pyUpperChar c = Char.ofNat (c.toNat - 32) := by
      rw [pyUpperChar, if_pos h]
    have h2 : (Char.ofNat (c.toNat - 32)).toNat = c.toNat - 32 :=
      char_toNat_ofNat _ (by omega)
    rw [h1]
    have h3 : pyLowerChar (Char.ofNat (c.toNat - 32)) =
        Char.ofNat ((Char.ofNat (c.toNat - 32)).toNat + 32) :=
      if_pos (by rw [h2]; omega)
    rw [h3, h2]
    have h4 : c.toNat - 32 + 32 = c.toNat := by omega
    rw [h4, Char.ofNat_toNat]
    exact (pyLowerChar_eq_self (by omega)).symm
  · have h383 : ¬c.toNat = 383 := by omega
    have h305 : ¬c.toNat = 305 := by omega
    rw [pyUpperChar, if_neg h, if_neg h383, if_neg h305]

theorem pyLower_idem (s : PyStr) : pyLower (pyLower s) = pyLower s := by
  induction s with
  | nil => rfl
  | cons c cs ih =>
    simp only [pyLower, List.map_cons] at ih ⊢
    rw [pyLowerChar_eq_self (pyLowerChar_not_upper c), ih]

theorem pyLower_upper_ascii :
    ∀ s : PyStr, (∀ c ∈ s, c.toNat < 128) →
      pyLower (pyUpper s) = pyLower s := by
  intro s
  induction s with
  | nil => intro _; rfl
  | cons c cs ih =>
    intro hs
    simp only [pyLower, pyUpper, List.map_cons]
    rw [pyLowerChar_upperChar_ascii c (hs c (List.mem_cons_self c cs))]
    have htail := ih (fun x hx => hs x (List.mem_cons_of_mem c hx))
    simp only [pyLower, pyUpper] at htail
    rw [htail]

/-- Counterexample to claim C10 as stated: `get_file_type` is not
invariant under uppercasing for arbitrary Unicode extensions.  Python
`str.upper` maps U+017F (latin small letter long s, already lowercase) to
`S`, so the extension `.c` followed by U+017F maps to `unknown` while its
uppercasing `.CS` maps to `csharp`. -/
theorem get_file_type_upper_counterexample :
    pyUpper (".cſ".toList) = ".CS".toList ∧
      get_file_type (".cſ".toList) = "unknown".toList ∧
      get_file_type (pyUpper (".cſ".toList)) = "csharp".toList ∧
      get_file_type (".cſ".toList) ≠
        get_file_type (pyUpper (".cſ".toList)) :=
  ⟨by decide, by decide, by decide, by decide⟩

/-- Claim C10, amended: `get_file_type` returns the mapped language tag
when the lowercased extension is a key of the fixed mapping and `unknown`
otherwise, and for every extension consisting solely of ASCII code points
it agrees on the extension, its lowercasing and its uppercasing; full
case-insensitivity fails for non-ASCII extensions, where uppercasing can
move an extension into the mapping. -/
theorem get_file_type_ascii_case_insensitive (e : PyStr)
    (hascii : ∀ c ∈ e, c.toNat < 128) :
    get_file_type e = get_file_type (pyLower e) ∧
      get_file_type e = get_file_type (pyUpper e) ∧
      get_file_type e =
        dictGet SUPPORTED_EXTENSIONS (pyLower e) ("unknown".toList) := by
  refine ⟨?_, ?_, rfl⟩
  · unfold get_file_type
    rw [pyLower_idem]
  · unfold get_file_type
    rw [pyLower_upper_ascii e hascii]

theorem get_file_type_ascii_case_insensitive_witness :
    (∀ c ∈ (".Py".toList : PyStr), c.toNat < 128) ∧
      (get_file_type (".Py".toList) = get_file_type (pyLower (".Py".toList)) ∧
        get_file_type (".Py".toList) = get_file_type (pyUpper (".Py".toList)) ∧
        get_file_type (".Py".toList) =
          dictGet SUPPORTED_EXTENSIONS (pyLower (".Py".toList))
            ("unknown".toList)) :=
  ⟨by decide, get_file_type_ascii_case_insensitive (".Py".toList) (by decide)⟩

/-- Claim C3: every failing inference-call outcome (connection error,
non-2xx protocol error, or any other exception) is mapped by both
inference wrappers to an error string beginning with the recognizable
marker `**Error`, rather than an exception propagating to the caller;
both wrappers are total over all outcomes, so processing continues. -/
theorem inference_failures_degrade_in_place
    (apiUrl model responseText message : PyStr) :
    (∃ rest, document_with_ollama OllamaOutcome.connectionError apiUrl model =
      "**Error".toList ++ rest) ∧
    (∃ rest, document_with_ollama (OllamaOutcome.httpError responseText) apiUrl model =
      "**Error".toList ++ rest) ∧
    (∃ rest, document_with_ollama (OllamaOutcome.otherError message) apiUrl model =
      "**Error".toList ++ rest) ∧
    (∃ rest, call_ollama_api OllamaOutcome.connectionError =
      "**Error".toList ++ rest) ∧
    (∃ rest, call_ollama_api (OllamaOutcome.httpError responseText) =
      "**Error".toList ++ rest) ∧
    (∃ rest, call_ollama_api (OllamaOutcome.otherError message) =
      "**Error".toList ++ rest) := by
  refine ⟨⟨": Could not connect to Ollama.** Please ensure it\x27s running at ".toList ++
      apiUrl ++ " and the model \x27".toList ++ model ++ "\x27 is downloaded.".toList, ?_⟩,
    ⟨" from Ollama API:** ".toList ++ responseText ++
      ". Check Ollama logs for details.".toList, ?_⟩,
    ⟨":** An unexpected error occurred while communicating with Ollama: ".toList ++
      message, ?_⟩,
    ⟨": Could not connect to Ollama.** Please ensure it\x27s running.".toList, ?_⟩,
    ⟨" from Ollama API:** ".toList ++ responseText ++ ". Check Ollama logs.".toList, ?_⟩,
    ⟨":** An unexpected error occurred while communicating with Ollama: ".toList ++
      message, ?_⟩⟩
  · have h : ("**Error: Could not connect to Ollama.** Please ensure it\x27s running at ".toList : PyStr) =
        "**Error".toList ++ ": Could not connect to Ollama.** Please ensure it\x27s running at ".toList := by
      decide
    simp only [document_with_ollama, h, List.append_assoc]
  · have h : ("**Error from Ollama API:** ".toList : PyStr) =
        "**Error".toList ++ " from Ollama API:** ".toList := by decide
    simp only [document_with_ollama, h, List.append_assoc]
  · have h : ("**Error:** An unexpected error occurred while communicating with Ollama: ".toList : PyStr) =
        "**Error".toList ++
          ":** An unexpected error occurred while communicating with Ollama: ".toList := by
      decide
    simp only [document_with_ollama, h, List.append_assoc]
  · have h : ("**Error: Could not connect to Ollama.** Please ensure it\x27s running.".toList : PyStr) =
        "**Error".toList ++
          ": Could not connect to Ollama.** Please ensure it\x27s running.".toList := by
      decide
    simp only [call_ollama_api, h, List.append_assoc]
  · have h : ("**Error from Ollama API:** ".toList : PyStr) =
        "**Error".toList ++ " from Ollama API:** ".toList := by decide
    simp only [call_ollama_api, h, List.append_assoc]
  · have h : ("**Error:** An unexpected error occurred while communicating with Ollama: ".toList : PyStr) =
        "**Error".toList ++
          ":** An unexpected error occurred while communicating with Ollama: ".toList := by
      decide
    simp only [call_ollama_api, h, List.append_assoc]

/-- Counterexample to claim C4 as stated: with a valid source directory
and zero matching files, the run exits cleanly with code 0 but no index
document is ever handed to `save_markdown` — `sys.exit(0)` at line 186 of
`code_documentation.py` precedes `generate_table_of_contents`, so index
generation IS skipped in the zero-work case. -/
theorem zero_files_no_index_counterexample :
    (main_documentation true [] (fun p => p)).toc = none ∧
      (main_documentation true [] (fun p => p)).ending = RunEnd.exited 0 :=
  ⟨rfl, rfl⟩

/-- Claim C4, amended: when no matching files are found the run is treated
as clean (exit code 0) but no index is written; the index stating that no
files were documented is produced only when the scan found files but none
of them was successfully documented. -/
theorem zero_files_clean_exit_without_index (files : List FileRec)
    (relTo : PyStr → PyStr) (h1 : files ≠ [])
    (h2 : collect_documented files = []) :
    (main_documentation true [] relTo).ending = RunEnd.exited 0 ∧
      (main_documentation true [] relTo).toc = none ∧
      (main_documentation true files relTo).toc =
        some (tocHeader ++ "No supported files were documented.\n".toList) := by
  refine ⟨rfl, rfl, ?_⟩
  have hrun : main_documentation true files relTo =
      ⟨RunEnd.completed,
        some (generate_table_of_contents (collect_documented files) relTo)⟩ := by
    unfold main_documentation
    rw [if_neg (by simp), if_neg h1]
  rw [hrun, h2]
  unfold generate_table_of_contents
  rw [if_pos rfl]

theorem zero_files_clean_exit_without_index_witness :
    (([⟨"a.py".toList, "a_doc.md".toList, none, true⟩] : List FileRec) ≠ [] ∧
      collect_documented
        ([⟨"a.py".toList, "a_doc.md".toList, none, true⟩] : List FileRec) = []) ∧
      ((main_documentation true [] (fun p => p)).ending = RunEnd.exited 0 ∧
        (main_documentation true [] (fun p => p)).toc = none ∧
        (main_documentation true
            ([⟨"a.py".toList, "a_doc.md".toList, none, true⟩] : List FileRec)
            (fun p => p)).toc =
          some (tocHeader ++ "No supported files were documented.\n".toList)) :=
  ⟨⟨by decide, by decide⟩,
    zero_files_clean_exit_without_index _ _ (by decide) (by decide)⟩

theorem lexLe_total (a b : PyStr) : lexLe a b = true ∨ lexLe b a = true := by
  induction a generalizing b with
  | nil => left; rfl
  | cons x xs ih =>
    cases b with
    | nil => right; rfl
    | cons y ys =>
      by_cases h1 : x.toNat < y.toNat
      · left; rw [lexLe, if_pos h1]
      · by_cases h2 : y.toNat < x.toNat
        · right; rw [lexLe, if_pos h2]
        · rcases ih ys with h | h
          · left; rw [lexLe, if_neg h1, if_neg h2]; exact h
          · right; rw [lexLe, if_neg h2, if_neg h1]; exact h

theorem lexLe_trans (a b c : PyStr)
    (hab : lexLe a b = true) (hbc : lexLe b c = true) : lexLe a c = true := by
  induction a generalizing b c with
  | nil => rfl
  | cons x xs ih =>
    cases b with
    | nil => rw [lexLe] at hab; simp at hab
    | cons y ys =>
      cases c with
      | nil => rw [lexLe] at hbc; simp at hbc
      | cons z zs =>
        rw [lexLe] at hab hbc ⊢
        by_cases hxz : x.toNat < z.toNat
        · rw [if_pos hxz]
        · by_cases hxy : x.toNat < y.toNat
          · by_cases hyz : y.toNat < z.toNat
            · omega
            · by_cases hzy : z.toNat < y.toNat
              · rw [if_neg hyz, if_pos hzy] at hbc; simp at hbc
              · omega
          · by_cases hyx : y.toNat < x.toNat
            · rw [if_neg hxy, if_pos hyx] at hab; simp at hab
            · rw [if_neg hxy, if_neg hyx] at hab
              by_cases hyz : y.toNat < z.toNat
              · omega
              · by_cases hzy : z.toNat < y.toNat
                · rw [if_neg hyz, if_pos hzy] at hbc; simp at hbc
                · rw [if_neg hyz, if_neg hzy] at hbc
                  by_cases hzx : z.toNat < x.toNat
                  · omega
                  · rw [if_neg hxz, if_neg hzx]
                    exact ih ys zs hab hbc

theorem collect_documented_eq_filter (files : List FileRec) :
    collect_documented files =
      (files.filter (fun f => f.content.isSome && f.saveOk)).map
        (fun f => (f.relPath, f.mdPath)) := by
  induction files with
  | nil => rfl
  | cons f fs ih =>
    obtain ⟨rp, mp, oc, so⟩ := f
    cases oc with
    | none => simpa [collect_documented, List.filter_cons] using ih
    | some v =>
      cases so with
      | false => simpa [collect_documented, List.filter_cons] using ih
      | true => simpa [collect_documented, List.filter_cons] using ih

/-- Claim C7: the persisted index lists exactly the (relative path,
storage path) pairs of files that were read and persisted successfully
(read/persist failures excluded), and emits them sorted case-insensitively
by relative path (stable keyed sort, as Python `list.sort`). -/
theorem toc_complete_and_sorted (files : List FileRec) (relTo : PyStr → PyStr)
    (hne : collect_documented files ≠ []) :
    collect_documented files =
      (files.filter (fun f => f.content.isSome && f.saveOk)).map
        (fun f => (f.relPath, f.mdPath)) ∧
      generate_table_of_contents (collect_documented files) relTo =
        tocHeader ++
          ((List.insertionSort tocKeyLe (collect_documented files)).map
            (tocEntry relTo)).flatten ∧
      (List.insertionSort tocKeyLe (collect_documented files)).Perm
        (collect_documented files) ∧
      List.Sorted tocKeyLe
        (List.insertionSort tocKeyLe (collect_documented files)) := by
  refine ⟨collect_documented_eq_filter files, ?_,
    List.perm_insertionSort _ _, ?_⟩
  · unfold generate_table_of_contents
    rw [if_neg hne]
  · haveI : IsTotal (PyStr × PyStr) tocKeyLe := ⟨fun p q => lexLe_total _ _⟩
    haveI : IsTrans (PyStr × PyStr) tocKeyLe := ⟨fun p q r => lexLe_trans _ _ _⟩
    exact List.sorted_insertionSort tocKeyLe _

theorem toc_complete_and_sorted_witness :
    (collect_documented
        ([⟨"b.py".toList, "ob.md".toList, some ("x".toList), true⟩,
          ⟨"A.py".toList, "oa.md".toList, some ("y".toList), true⟩,
          ⟨"c.txt".toList, "oc.md".toList, none, true⟩] : List FileRec) ≠ []) ∧
      (collect_documented
          ([⟨"b.py".toList, "ob.md".toList, some ("x".toList), true⟩,
            ⟨"A.py".toList, "oa.md".toList, some ("y".toList), true⟩,
            ⟨"c.txt".toList, "oc.md".toList, none, true⟩] : List FileRec) =
        (([⟨"b.py".toList, "ob.md".toList, some ("x".toList), true⟩,
            ⟨"A.py".toList, "oa.md".toList, some ("y".toList), true⟩,
            ⟨"c.txt".toList, "oc.md".toList, none, true⟩] : List FileRec).filter
          (fun f => f.content.isSome && f.saveOk)).map
          (fun f => (f.relPath, f.mdPath)) ∧
        generate_table_of_contents
            (collect_documented
              ([⟨"b.py".toList, "ob.md".toList, some ("x".toList), true⟩,
                ⟨"A.py".toList, "oa.md".toList, some ("y".toList), true⟩,
                ⟨"c.txt".toList, "oc.md".toList, none, true⟩] : List FileRec))
            (fun p => p) =
          tocHeader ++
            ((List.insertionSort tocKeyLe
              (collect_documented
                ([⟨"b.py".toList, "ob.md".toList, some ("x".toList), true⟩,
                  ⟨"A.py".toList, "oa.md".toList, some ("y".toList), true⟩,
                  ⟨"c.txt".toList, "oc.md".toList, none, true⟩] : List FileRec))).map
              (tocEntry (fun p => p))).flatten ∧
        (List.insertionSort tocKeyLe
          (collect_documented
            ([⟨"b.py".toList, "ob.md".toList, some ("x".toList), true⟩,
              ⟨"A.py".toList, "oa.md".toList, some ("y".toList), true⟩,
              ⟨"c.txt".toList, "oc.md".toList, none, true⟩] : List FileRec))).Perm
          (collect_documented
            ([⟨"b.py".toList, "ob.md".toList, some ("x".toList), true⟩,
              ⟨"A.py".toList, "oa.md".toList, some ("y".toList), true⟩,
              ⟨"c.txt".toList, "oc.md".toList, none, true⟩] : List FileRec)) ∧
        List.Sorted tocKeyLe
          (List.insertionSort tocKeyLe
            (collect_documented
              ([⟨"b.py".toList, "ob.md".toList, some ("x".toList), true⟩,
                ⟨"A.py".toList, "oa.md".toList, some ("y".toList), true⟩,
                ⟨"c.txt".toList, "oc.md".toList, none, true⟩] : List FileRec)))) :=
  ⟨by decide, toc_complete_and_sorted _ _ (by decide)⟩

theorem documentPrompt_contains_partAnn (c fn ft ann : PyStr) :
    ∃ pre post, documentPrompt c fn ft ann = pre ++ ann ++ post := by
  refine ⟨"You are an expert software engineer and technical writer.\nYour task is to analyze the following ".toList ++
      ft ++ " code or configuration snippet from the file \x27".toList ++ fn ++
      "\x27.\n".toList,
    " # This will be like \"(Part 1 of 3)\" or empty for single chunks.\n\nProvide a detailed, human-readable explanation of what this code/config snippet does, its purpose, and its inner workings.\nFocus on clarity and conciseness, making it easy for non-experts to understand.\n\n**Key Requirements:**\n1.  **For Code:** Identify any classes, functions, methods, or significant variables/enums within this snippet.\n    **Bold their names** using Markdown (e.g., **ClassName**, **function_name()**, **CONSTANT_NAME**).\n    Explain their roles and how they contribute to the overall functionality.\n2.  **For Configuration Files:** Explain the structure, purpose of different sections/keys, and what values they typically hold.\n3.  **Overall Context:** If this is part of a larger file, try to infer its context or contribution to the whole.\n\nCode/Configuration snippet:\n".toList ++
      c ++ "\nDocumentation:\n".toList, ?_⟩
  unfold documentPrompt
  simp only [List.append_assoc]

theorem docParts_eq_flatten (file_name file_type : PyStr) (n : Nat)
    (ollama : PyStr → PyStr) :
    ∀ (cs : List PyStr) (i : Nat),
      docParts file_name file_type n ollama i cs =
        ((cs.enumFrom i).map (docSection file_name file_type n ollama)).flatten := by
  intro cs
  induction cs with
  | nil => intro i; rfl
  | cons c cs ih =>
    intro i
    rw [docParts, List.enumFrom_cons, List.map_cons, List.flatten_cons, ih]
    simp [docSection, List.append_assoc]

/-- Claim C5: for a file split into N > 1 chunks the produced document is
the header followed by exactly N sections in chunk order whose headers
carry part numbers 1..N, each built from a prompt carrying the
part annotation; for N = 1 the document is the header followed by the
single inference result with empty part annotation and no part headers. -/
theorem per_file_document_ordering (relPath file_name file_type content : PyStr)
    (b : Nat) (ollama : PyStr → PyStr) :
    (1 < (chunk_content content b).length →
      full_markdown_doc relPath file_name file_type content b ollama =
        docHeader relPath file_type ++
          ((chunk_content content b).enum.map
            (docSection file_name file_type (chunk_content content b).length
              ollama)).flatten ∧
      ((chunk_content content b).enum.map
        (docSection file_name file_type (chunk_content content b).length
          ollama)).length = (chunk_content content b).length ∧
      (∀ p ∈ (chunk_content content b).enum,
        ∃ pre post,
          documentPrompt p.2 file_name file_type
              (partAnn (p.1 + 1) (chunk_content content b).length) =
            pre ++ partAnn (p.1 + 1) (chunk_content content b).length ++ post)) ∧
    ((chunk_content content b).length = 1 →
      full_markdown_doc relPath file_name file_type content b ollama =
        docHeader relPath file_type ++
          ollama (documentPrompt content file_name file_type [])) := by
  constructor
  · intro h
    refine ⟨?_, ?_, ?_⟩
    · simp only [full_markdown_doc]
      rw [if_pos h, docParts_eq_flatten]
      rfl
    · rw [List.length_map, List.enum_length]
    · intro p _
      exact documentPrompt_contains_partAnn _ _ _ _
  · intro h
    simp only [full_markdown_doc]
    rw [if_neg (by omega)]

theorem per_file_document_ordering_witness :
    1 < (chunk_content ("aa\nbb\ncc\n".toList) 3).length ∧
      (full_markdown_doc ("f.py".toList) ("f.py".toList) ("python".toList)
          ("aa\nbb\ncc\n".toList) 3 (fun p => p) =
        docHeader ("f.py".toList) ("python".toList) ++
          ((chunk_content ("aa\nbb\ncc\n".toList) 3).enum.map
            (docSection ("f.py".toList) ("python".toList)
              (chunk_content ("aa\nbb\ncc\n".toList) 3).length
              (fun p => p))).flatten ∧
      ((chunk_content ("aa\nbb\ncc\n".toList) 3).enum.map
        (docSection ("f.py".toList) ("python".toList)
          (chunk_content ("aa\nbb\ncc\n".toList) 3).length
          (fun p => p))).length = (chunk_content ("aa\nbb\ncc\n".toList) 3).length ∧
      (∀ p ∈ (chunk_content ("aa\nbb\ncc\n".toList) 3).enum,
        ∃ pre post,
          documentPrompt p.2 ("f.py".toList) ("python".toList)
              (partAnn (p.1 + 1) (chunk_content ("aa\nbb\ncc\n".toList) 3).length) =
            pre ++
              partAnn (p.1 + 1) (chunk_content ("aa\nbb\ncc\n".toList) 3).length ++
              post)) :=
  ⟨by decide,
    (per_file_document_ordering ("f.py".toList) ("f.py".toList) ("python".toList)
      ("aa\nbb\ncc\n".toList) 3 (fun p => p)).1 (by decide)⟩

/-- Claim C8: the deep-documentation pipeline issues exactly three
inference calls per file, each prompt containing the full file content
(no chunking, whatever the size), and assembles the three facet results in
the fixed order summary, components, examples regardless of what each call
returns. -/
theorem deep_documentation_three_whole_file_calls
    (file_content file_name file_type : PyStr) (ollama : PyStr → PyStr) :
    (deepDocPrompts file_content file_name file_type).length = 3 ∧
      (∀ p ∈ deepDocPrompts file_content file_name file_type,
        ∃ pre post, p = pre ++ file_content ++ post) ∧
      document_file_with_ollama file_content file_name file_type ollama =
        "## Overall Summary\n\n".toList ++
          ollama (summaryPrompt file_content file_name file_type) ++
          "\n\n---\n\n".toList ++
          "## Properties, Variables, and Functions\n\n".toList ++
          ollama (componentsPrompt file_content file_name file_type) ++
          "\n\n---\n\n".toList ++
          "## Examples on How to Use the Code\n\n".toList ++
          ollama (examplesPrompt file_content file_name file_type) ++
          "\n\n---\n\n".toList := by
  refine ⟨rfl, ?_, ?_⟩
  · intro p hp
    simp only [deepDocPrompts, List.mem_cons, List.mem_singleton,
      List.not_mem_nil, or_false] at hp
    rcases hp with rfl | rfl | rfl
    · refine ⟨"You are an expert software engineer and technical writer.\n    Analyze the following ".toList ++
        file_type ++ " code/configuration from the file \x27".toList ++ file_name ++
        "\x27.\n    Provide a concise, high-level summary of its primary purpose, what problem it solves, and its main functionalities.\n    Keep it to 2-3 paragraphs.\n\n    Code/Configuration:\n    ```".toList ++
        file_type ++ "\n    ".toList,
        "\n    ```\n\n    Summary:\n    ".toList, ?_⟩
      unfold summaryPrompt
      simp only [List.append_assoc]
    · refine ⟨"You are an expert software engineer and technical writer.\n    Analyze the following ".toList ++
        file_type ++ " code/configuration from the file \x27".toList ++ file_name ++
        "\x27.\n    Identify and explain the purpose and role of all significant classes, functions, methods, variables, constants, and enums.\n    For each identified component, provide a clear, concise description.\n    **Bold their names** using Markdown (e.g., **ClassName**, **function_name()**, **CONSTANT_NAME**).\n    Organize this information clearly using subheadings (e.g., \x27Classes\x27, \x27Functions\x27, \x27Variables\x27).\n\n    Code/Configuration:\n    ```".toList ++
        file_type ++ "\n    ".toList,
        "\n    ```\n\n    Detailed Explanation of Components:\n    ".toList, ?_⟩
      unfold componentsPrompt
      simp only [List.append_assoc]
    · refine ⟨"You are an expert software engineer and technical writer.\n    Consider the following ".toList ++
        file_type ++ " code from the file \x27".toList ++ file_name ++
        "\x27.\n    Does this code require usage examples to be properly understood?\n    If YES, provide 1-3 clear and concise code examples demonstrating how to use the main functionalities of this code.\n    Use code blocks for examples. Explain what each example does.\n    If NO (e.g., it\x27s a configuration file, a simple script that runs on its own, or a highly internal utility), just state \x27N/A\x27 or \x27No specific usage examples are typically required for this type of file.\x27.\n\n    Code/Configuration:\n    ```".toList ++
        file_type ++ "\n    ".toList,
        "\n    ```\n\n    Usage Examples:\n    ".toList, ?_⟩
      unfold examplesPrompt
      simp only [List.append_assoc]
  · have hmerge : ("\n\n".toList : PyStr) ++ "---\n\n".toList =
        "\n\n---\n\n".toList := by decide
    simp only [document_file_with_ollama, ← hmerge, List.append_assoc]

end MimirDoc
